import Mathlib

/-!
Verification of the drift-detection Telegram notification core
(`scripts/drift-detection/`): message escaping, composition, splitting
(`message_formatter.py`), the data model (`models.py`), retry/backoff
(`retry_handler.py`) and the delivery coordinator (`notify_telegram.py`).

Python strings are modelled as `List Char` (Python strings are sequences of
Unicode code points, as is `List Char`).  Python `int` values that are only
ever non-negative are modelled as `Nat`; where Python arithmetic can go
negative (the effective length limit `max_length - 100`, slice indices) we
compute in `Int` with Python's slice-clamping semantics made explicit.
-/

/-- Convert a Lean string literal to the `List Char` representation. -/
def chars (s : String) : List Char := s.data

/-- The newline character, written out once. -/
def nl : Char := '\n'

/-- Whitespace test used by Python's `str.strip()` for the ASCII range
(space, tab, newline, carriage return, vertical tab, form feed). -/
def isPySpace (c : Char) : Bool :=
  c = ' ' || c = '\t' || c = '\n' || c = '\r' || c = Char.ofNat 11 || c = Char.ofNat 12

/-- Predicate `blank s` is `not s.strip()` in Python: the string has no
non-whitespace character. -/
def blank (s : List Char) : Bool := s.all isPySpace

/-- Predicate `hasNonWs s`: some character of `s` is not whitespace. -/
def hasNonWs (s : List Char) : Bool := s.any (fun c => !isPySpace c)

/-- Python `haystack.find(needle)`: index of the first occurrence of
`needle` in `haystack`, scanning left to right (`none` for `-1`). -/
def pyFind (needle : List Char) : List Char → Option Nat
  | [] => if needle = [] then some 0 else none
  | c :: rest =>
    if needle.isPrefixOf (c :: rest) then some 0
    else (pyFind needle rest).map (· + 1)

/-- Scanner for Python `s.split("\n\n")`: splits at each left-to-right,
non-overlapping occurrence of a blank line.  `acc` holds the (reversed)
characters of the section being built. -/
def pySplitNlGo (acc : List Char) : List Char → List (List Char)
  | [] => [acc.reverse]
  | [c] => [(c :: acc).reverse]
  | c :: d :: rest =>
    if c = '\n' ∧ d = '\n' then acc.reverse :: pySplitNlGo [] rest
    else pySplitNlGo (c :: acc) (d :: rest)

/-- Python `s.split("\n\n")`. -/
def pySplitNl (s : List Char) : List (List Char) := pySplitNlGo [] s

/-- Predicate `noNlnlB s` holds when `s` contains no occurrence of `"\n\n"`. -/
def noNlnlB : List Char → Bool
  | [] => true
  | [_] => true
  | c :: d :: rest => if c = '\n' ∧ d = '\n' then false else noNlnlB (d :: rest)

/-- Python slice prefix `s[:i]` for an `Int` index `i` (negative indices
count from the end, clamped at 0). -/
def pyTake (s : List Char) (i : Int) : List Char :=
  if i < 0 then s.take ((s.length : Int) + i).toNat else s.take i.toNat

/-- Python slice suffix `s[i:]` for an `Int` index `i`. -/
def pyDropFrom (s : List Char) (i : Int) : List Char :=
  if i < 0 then s.drop ((s.length : Int) + i).toNat else s.drop i.toNat

/-- Python `s.lstrip('\n')`. -/
def lstripNl (s : List Char) : List Char := s.dropWhile (· = '\n')

/-- Largest index `i < bound` with `s[i] = '\n'` (helper for Python
`s.rfind('\n', 0, end)` after the end index has been clamped). -/
def lastNlBefore (s : List Char) : Nat → Option Nat
  | 0 => none
  | e + 1 => if s.get? e = some '\n' then some e else lastNlBefore s e

/-- Python `s.rfind('\n', 0, end)` for an `Int` end index: the slice end is
first clamped to `[0, len]` (negative values count from the end of `s`). -/
def pyRfindNl (s : List Char) (e : Int) : Option Nat :=
  let bound : Nat := if e < 0 then ((s.length : Int) + e).toNat else min e.toNat s.length
  lastNlBefore s bound

/-- Python `sep.join(pieces)` for an arbitrary separator. -/
def joinSep (sep : List Char) : List (List Char) → List Char
  | [] => []
  | [x] => x
  | x :: y :: rest => x ++ sep ++ joinSep sep (y :: rest)

/-- Python `"\n".join(lines)`. -/
def joinNl : List (List Char) → List Char := joinSep ['\n']

/-- Decimal digits of `n`, as Python's `str(n)` / f-string interpolation
produce them. -/
def natChars (n : Nat) : List Char := Nat.toDigits 10 n

/-- Zero-padded decimal rendering (`%02d`, `%04d` in `strftime`). -/
def padZero (width n : Nat) : List Char :=
  List.replicate (width - (natChars n).length) '0' ++ natChars n

/-- Python string comparison `a < b`: lexicographic on code points. -/
def lexLtB : List Char → List Char → Bool
  | [], [] => false
  | [], _ :: _ => true
  | _ :: _, [] => false
  | a :: as', b :: bs' =>
    if a.toNat < b.toNat then true
    else if b.toNat < a.toNat then false
    else lexLtB as' bs'

/-- Insert into a list sorted by `lexLtB` (strictly ascending when the
input keys are distinct, as `sorted` produces for a Python `set`). -/
def insertSorted (x : List Char) : List (List Char) → List (List Char)
  | [] => [x]
  | y :: ys => if lexLtB x y then x :: y :: ys else y :: insertSorted x ys

/-- Python `sorted(keys)` (insertion sort; `sorted` is a total order on the
distinct keys of a `set`). -/
def sortStrings : List (List Char) → List (List Char)
  | [] => []
  | x :: xs => insertSorted x (sortStrings xs)

/-! Text escaper (`message_formatter.escape_markdown`) -/

/-- The MarkdownV2 escape set `_ * [ ] ( ) ~ ` > # + - = | { } . !` from
`escape_markdown`, in source order (backquote and braces written via
`Char.ofNat`). -/
def specialChars : List Char :=
  ['_', '*', '[', ']', '(', ')', '~', Char.ofNat 96, '>', '#', '+', '-', '=',
   '|', Char.ofNat 123, Char.ofNat 125, '.', '!']

/-- Python `s.replace(c, "\\" + c)` for a single character `c`. -/
def replaceEsc (s : List Char) (c : Char) : List Char :=
  s.flatMap (fun x => if x = c then ['\\', c] else [x])

/-- Function `escape_markdown`: successively replace each special character with a
backslash-prefixed copy (`message_formatter.py` lines 21-41). -/
def escape_markdown (text : List Char) : List Char :=
  specialChars.foldl replaceEsc text

/-- Spec-side formulation of the escaper's contract: every occurrence of a
character from the escape set is preceded by the escape marker, all other
characters are untouched ("returns text where every character in a fixed
escape set is preceded by an escape marker"). -/
def escapeSpec (text : List Char) : List Char :=
  text.flatMap (fun x => if x ∈ specialChars then ['\\', x] else [x])

/-! Data model (`models.py`) -/

/-- Enum `ActionType`: Terraform action types. -/
inductive ActionType where
  | create
  | update
  | delete
  | replace
  | noop
  deriving DecidableEq, Repr

/-- Mapping `ActionType.value`: the string value of each enum member. -/
def ActionType.value : ActionType → List Char
  | .create => chars "create"
  | .update => chars "update"
  | .delete => chars "delete"
  | .replace => chars "replace"
  | .noop => chars "no-op"

/-- A Python `dict` of resource attributes: association list of key/value
pairs (attribute values are modelled as strings). -/
def AttrDict : Type := List (List Char × List Char)

instance : DecidableEq AttrDict := by unfold AttrDict; infer_instance

/-- Python `d.get(key, "[not set]")`. -/
def dictGet (d : AttrDict) (k : List Char) : List Char :=
  match d.find? (fun p => p.1 = k) with
  | some p => p.2
  | none => chars "[not set]"

/-- Keys of a dict, in insertion order. -/
def dictKeys (d : AttrDict) : List (List Char) := d.map Prod.fst

/-- Model of `ResourceChange` (`models.py` lines 31-57). -/
structure ResourceChange where
  resource_type : List Char
  resource_name : List Char
  action : ActionType
  before : Option AttrDict
  after : Option AttrDict
  deriving DecidableEq

/-- Property `ResourceChange.display_name`: `f"{resource_type}.{resource_name}"`. -/
def ResourceChange.display_name (c : ResourceChange) : List Char :=
  c.resource_type ++ ['.'] ++ c.resource_name

/-- The `" â†’ "` separator appearing literally in the source of
`change_summary` (the source file holds a double-encoded arrow: the three
code points U+00E2, U+2020, U+2019). -/
def arrowSep : List Char := [' ', Char.ofNat 0xE2, Char.ofNat 0x2020, Char.ofNat 0x2019, ' ']

/-- The line `f"{key}: {before_val} â†’ {after_val}"`. -/
def diffLine (b a : AttrDict) (k : List Char) : List Char :=
  k ++ chars ": " ++ dictGet b k ++ arrowSep ++ dictGet a k

/-- The fallback `f"Action: {action.value}"`. -/
def actionFallback (act : ActionType) : List Char :=
  chars "Action: " ++ act.value

/-- Python `sorted(set(before.keys()) | set(after.keys()))`. -/
def sortedAllKeys (b a : AttrDict) : List (List Char) :=
  sortStrings ((dictKeys b ++ dictKeys a).dedup)

/-- Property `ResourceChange.change_summary` (`models.py` lines 44-57).  Note the
Python truthiness test `if not self.before or not self.after`: an *empty*
dict takes the fallback branch just like a missing one. -/
def ResourceChange.change_summary (c : ResourceChange) : List (List Char) :=
  match c.before, c.after with
  | some b, some a =>
    if b = [] ∨ a = [] then [actionFallback c.action]
    else
      let changes := (sortedAllKeys b a).foldl
        (fun acc k => if dictGet b k ≠ dictGet a k then acc ++ [diffLine b a k] else acc) []
      if changes = [] then [actionFallback c.action] else changes
  | _, _ => [actionFallback c.action]

/-- Spec-side formulation of `changeSummary` ("sorted list of
`key: before→after` strings for keys whose values differ across
`before`/`after`", falling back to `"Action: <action>"`). -/
def changeSummarySpec (act : ActionType) (b a : AttrDict) : List (List Char) :=
  let diffs := ((sortedAllKeys b a).filter (fun k => dictGet b k ≠ dictGet a k)).map (diffLine b a)
  if diffs = [] then [actionFallback act] else diffs

/-- A UTC timestamp, as far as `strftime` needs it. -/
structure Datetime where
  year : Nat
  month : Nat
  day : Nat
  hour : Nat
  minute : Nat
  second : Nat
  deriving DecidableEq

/-- Rendering of `timestamp.strftime("%Y\\-m\\-%d %H:%M:%S UTC")`.  In the Python source
the format string contains literal backslashes and a literal `m`: only
`%Y`, `%d`, `%H`, `%M`, `%S` are directives, so the month is rendered as
the literal letter `m`. -/
def strftimeRender (t : Datetime) : List Char :=
  padZero 4 t.year ++ chars "\\-m\\-" ++ padZero 2 t.day ++ chars " " ++
  padZero 2 t.hour ++ chars ":" ++ padZero 2 t.minute ++ chars ":" ++
  padZero 2 t.second ++ chars " UTC"

/-- Model of `DriftDetectionEvent` (`models.py` lines 60-84). -/
structure DriftDetectionEvent where
  timestamp : Datetime
  environment : List Char
  branch : List Char
  workflow_run_id : List Char
  workflow_run_url : List Char
  drift_detected : Bool
  resource_changes : List ResourceChange
  deriving DecidableEq

/-- Property `DriftDetectionEvent.total_changes`. -/
def DriftDetectionEvent.total_changes (e : DriftDetectionEvent) : Nat :=
  e.resource_changes.length

/-- The five action values in the order Python's `sorted` puts them
(`"create" < "delete" < "no-op" < "replace" < "update"`); `changes_by_action`
is a `Counter` whose items are traversed via `sorted(...)` in the
formatter. -/
def sortedActionValues : List ActionType :=
  [.create, .delete, .noop, .replace, .update]

/-- Property `event.changes_by_action`, already sorted by action value: the pairs
`(action.value, count)` for each action with at least one change. -/
def changesByAction (e : DriftDetectionEvent) : List (List Char × Nat) :=
  sortedActionValues.filterMap (fun a =>
    let n := (e.resource_changes.filter (fun c => c.action = a)).length
    if n = 0 then none else some (a.value, n))

/-- Model of `NotificationPart` (`models.py` lines 87-94). -/
structure NotificationPart where
  part_number : Nat
  total_parts : Nat
  content : List Char
  telegram_message_id : Option Nat
  deriving DecidableEq

/-- Enum `DeliveryStatus` (`models.py` lines 23-28). -/
inductive DeliveryStatus where
  | pending
  | sent
  | failed
  | retrying
  deriving DecidableEq, Repr

/-! Message composer (`message_formatter.py` lines 44-119, 234-260) -/

/-- The action emoji mapping in `format_resource_change` (each emoji is a
single code point; `•` is the `.get` default for unknown actions, which the
enum makes unreachable). -/
def actionEmoji : ActionType → Char
  | .create => Char.ofNat 0x2795
  | .update => Char.ofNat 0x1F4DD
  | .delete => Char.ofNat 0x274C
  | .replace => Char.ofNat 0x1F504
  | .noop => Char.ofNat 0x2713

/-- Function `format_resource_change`: emoji + bold escaped display name, then one
indented bullet per `change_summary` entry, each escaped. -/
def format_resource_change (c : ResourceChange) : List Char :=
  joinNl (([actionEmoji c.action] ++ chars " *" ++ escape_markdown c.display_name ++ chars "*")
          :: c.change_summary.map (fun s => chars "  • " ++ escape_markdown s))

/-- The fixed separator line of `format_drift_message` (sixteen `━`). -/
def sepChars : List Char := chars "━━━━━━━━━━━━━━━━"

/-- The summary `", ".join(f"{action}: {count}" ...)` over the sorted action counts. -/
def changesSummaryText (e : DriftDetectionEvent) : List Char :=
  joinSep (chars ", ") ((changesByAction e).map (fun p => p.1 ++ chars ": " ++ natChars p.2))

/-- The lines of `format_drift_message` up to (excluding) the separator:
alert header, blank, metadata lines, blank, and — when any changes exist —
the escaped per-action summary line and a blank. -/
def metaLines (e : DriftDetectionEvent) : List (List Char) :=
  [chars "🚨 *Infrastructure Drift Detected*", []] ++
  [chars "*Environment:* " ++ escape_markdown e.environment,
   chars "*Branch:* " ++ escape_markdown e.branch,
   chars "*Time:* " ++ strftimeRender e.timestamp,
   chars "*Resources Affected:* " ++ natChars e.total_changes,
   []] ++
  (if changesByAction e = [] then [] else [chars "*Changes:* " ++ escape_markdown (changesSummaryText e), []])

/-- Per-change block lines: each rendered block followed by a blank line. -/
def blockLines (e : DriftDetectionEvent) : List (List Char) :=
  e.resource_changes.flatMap (fun c => [format_resource_change c, []])

/-- The trailing `[View Full Report](url)` line, present when the event has
a (truthy, i.e. non-empty) run URL. -/
def linkLines (e : DriftDetectionEvent) : List (List Char) :=
  if e.workflow_run_url = [] then [] else
    [chars "[View Full Report](" ++ e.workflow_run_url ++ chars ")"]

/-- Function `format_drift_message` (`message_formatter.py` lines 75-119). -/
def format_drift_message (e : DriftDetectionEvent) : List Char :=
  joinNl (metaLines e ++ [sepChars, []] ++ blockLines e ++ linkLines e)

/-- Function `format_no_drift_message` (`message_formatter.py` lines 234-260). -/
def format_no_drift_message (e : DriftDetectionEvent) : List Char :=
  joinNl ([chars "✅ *No Infrastructure Drift Detected*", [],
           chars "*Environment:* " ++ escape_markdown e.environment,
           chars "*Branch:* " ++ escape_markdown e.branch,
           chars "*Time:* " ++ strftimeRender e.timestamp,
           [],
           chars "All infrastructure resources match their expected state\\."] ++
          (if e.workflow_run_url = [] then [] else
             [[], chars "[View Details](" ++ e.workflow_run_url ++ chars ")"]))

/-! Splitter (`message_formatter.py` lines 122-231) -/

/-- Constant `MESSAGE_BUFFER` (reserved room for part headers). -/
def MESSAGE_BUFFER : Nat := 100

/-- Constant `MAX_MESSAGE_LENGTH` (Telegram's hard limit, the default `max_length`). -/
def MAX_MESSAGE_LENGTH : Nat := 4096

/-- The header/content cut: everything up to and including the separator
line's trailing newline is the header when the separator occurs at a
positive index; otherwise the header is empty (lines 156-165). -/
def splitHeaderContent (message : List Char) : List Char × List Char :=
  match pyFind sepChars message with
  | some idx =>
    if 0 < idx then (message.take (idx + 17), message.drop (idx + 17))
    else ([], message)
  | none => ([], message)

/-- The greedy paragraph accumulation loop (lines 170-188), including the
trailing `if current_part: part_contents.append(current_part)`.  Blank
sections are skipped; a section is appended to the running chunk joined by
a blank line while the result still fits `eff`, otherwise the chunk is
closed. -/
def greedyChunks (eff : Int) : List (List Char) → List Char → List (List Char) → List (List Char)
  | [], cur, acc => if cur ≠ [] then acc ++ [cur] else acc
  | s :: rest, cur, acc =>
    if blank s then greedyChunks eff rest cur acc
    else
      let test := if cur ≠ [] then cur ++ ['\n', '\n'] ++ s else s
      if (test.length : Int) > eff then
        greedyChunks eff rest s (if cur ≠ [] then acc ++ [cur] else acc)
      else greedyChunks eff rest test acc

/-- The hard line-boundary fallback loop (lines 195-207), with explicit
fuel.  Each terminating Python iteration either appends the final piece or
strictly shortens `long_content`, so `length + 1` fuel reproduces every
terminating run; `none` models the runs on which the Python loop never
terminates (possible when `eff ≤ 0`, i.e. `max_length ≤ 100`). -/
def forceSplit (eff : Int) : Nat → List Char → Option (List (List Char))
  | 0, _ => none
  | _ + 1, [] => some []
  | fuel + 1, s =>
    if (s.length : Int) ≤ eff then some [s]
    else
      let bp : Int := match pyRfindNl s eff with
        | some i => (i : Int)
        | none => eff
      (forceSplit eff fuel (lstripNl (pyDropFrom s bp))).map (fun rest => pyTake s bp :: rest)

/-- Paragraph-level pass: header/content cut, blank-line split, greedy
accumulation seeded with the header. -/
def paragraphChunks (message : List Char) (eff : Int) : List (List Char) :=
  let hc := splitHeaderContent message
  greedyChunks eff (pySplitNl hc.2) hc.1 []

/-- Chunk computation including the single-oversized-chunk fallback
(lines 191-207). -/
def splitChunks (message : List Char) (eff : Int) : Option (List (List Char)) :=
  match paragraphChunks message eff with
  | [c] => if (c.length : Int) > eff then forceSplit eff (c.length + 1) c else some [c]
  | l => some l

/-- The part indicator `f"🔔 *Drift Alert \\(Part {i}/{total_parts}\\)*\n\n"`. -/
def partHeaderChars (i total : Nat) : List Char :=
  chars "🔔 *Drift Alert \\(Part " ++ natChars i ++ chars "/" ++ natChars total ++ chars "\\)*" ++ ['\n', '\n']

/-- The escaped ellipsis `"\\.\\.\\."` appended on truncation (six
characters). -/
def ellipsisChars : List Char := ['\\', '.', '\\', '.', '\\', '.']

/-- The final length guard (lines 219-221): truncate to `max_length - 3`
and append the escaped ellipsis whenever the content exceeds
`max_length`. -/
def truncateContent (fc : List Char) (maxLen : Nat) : List Char :=
  if fc.length > maxLen then pyTake fc ((maxLen : Int) - 3) ++ ellipsisChars else fc

/-- The final `for i, content in enumerate(part_contents, 1)` loop
(lines 212-229): prepend a part indicator when more than one chunk exists,
apply the length guard, and number the parts. -/
def enumerateParts (total maxLen : Nat) : Nat → List (List Char) → List NotificationPart
  | _, [] => []
  | i, c :: cs =>
    { part_number := i,
      total_parts := total,
      content := truncateContent (if 1 < total then partHeaderChars i total ++ c else c) maxLen,
      telegram_message_id := none } :: enumerateParts total maxLen (i + 1) cs

/-- Function `split_message` (`message_formatter.py` lines 122-231).  The `event`
argument is accepted but, as in the source, never used.  `none` models the
non-terminating fallback runs (see `forceSplit`). -/
def split_message (message : List Char) (event : DriftDetectionEvent)
    (maxLen : Nat := MAX_MESSAGE_LENGTH) : Option (List NotificationPart) :=
  let eff : Int := (maxLen : Int) - (MESSAGE_BUFFER : Int)
  if (message.length : Int) ≤ eff then
    some [{ part_number := 1, total_parts := 1, content := message, telegram_message_id := none }]
  else
    (splitChunks message eff).map (fun pcs => enumerateParts pcs.length maxLen 1 pcs)

/-! Retry handler (`retry_handler.py`) -/

/-- Model of `RetryHandler.__init__` fields (defaults 3, 2, 2, 8). -/
structure RetryHandler where
  max_retries : Nat := 3
  initial_delay : Nat := 2
  multiplier : Nat := 2
  max_delay : Nat := 8
  deriving DecidableEq

/-- Function `RetryHandler.calculate_delay` (lines 143-154):
`min(initial_delay * multiplier ** attempt, max_delay)`. -/
def RetryHandler.calculate_delay (h : RetryHandler) (attempt : Nat) : Nat :=
  min (h.initial_delay * h.multiplier ^ attempt) h.max_delay

/-- Error classifications a send can fail with: the members of
`RETRYABLE_EXCEPTIONS` (`ConnectionError`, `TimeoutError`, `NetworkError`,
`TimedOut`, `RetryAfter`) plus the fatal telegram errors (`InvalidToken`,
`BadRequest`). -/
inductive ErrClass where
  | connectionError
  | timeoutError
  | networkError
  | timedOut
  | retryAfter
  | invalidToken
  | badRequest
  deriving DecidableEq, Repr

/-- Membership in `RETRYABLE_EXCEPTIONS` (`retry_handler.py` lines 28-44,
with the telegram package importable). -/
def isRetryableExc : ErrClass → Bool
  | .connectionError => true
  | .timeoutError => true
  | .networkError => true
  | .timedOut => true
  | .retryAfter => true
  | _ => false

/-- Whether the classification is a `telegram.error.TelegramError`
subclass (`NetworkError`, `TimedOut`, `RetryAfter`, `InvalidToken`,
`BadRequest` are; the Python builtins `ConnectionError` and `TimeoutError`
are not). -/
def isTelegramError : ErrClass → Bool
  | .connectionError => false
  | .timeoutError => false
  | _ => true

/-- An exception escaping `execute_with_retry`: either a transport
classification re-raised or propagated, or the terminal
`RuntimeError("Unexpected retry handler state")`. -/
inductive RunError where
  | exc (e : ErrClass)
  | runtime
  deriving DecidableEq, Repr

instance {ε α : Type} [DecidableEq ε] [DecidableEq α] : DecidableEq (Except ε α) := fun x y =>
  match x, y with
  | .ok a, .ok b =>
    if h : a = b then .isTrue (by rw [h]) else .isFalse (fun hh => h (Except.ok.inj hh))
  | .error a, .error b =>
    if h : a = b then .isTrue (by rw [h]) else .isFalse (fun hh => h (Except.error.inj hh))
  | .ok _, .error _ => .isFalse (fun hh => Except.noConfusion hh)
  | .error _, .ok _ => .isFalse (fun hh => Except.noConfusion hh)

/-- Observable result of one `execute_with_retry` run: the outcome, the
number of invocations of `func`, and the `asyncio.sleep` backoff delays in
order. -/
structure RetryRun (α : Type) where
  outcome : Except RunError α
  calls : Nat
  sleeps : List Nat
  deriving DecidableEq

/-- The `for attempt in range(self.max_retries)` loop of
`execute_with_retry` (lines 115-141).  `last` is `last_exception`, `rem`
the remaining attempts.  A retryable failure sleeps
`calculate_delay attempt` when further attempts remain; a non-retryable
exception is not caught and propagates at once; on exhaustion the last
retryable exception (or, absent one, `RuntimeError`) is raised. -/
def retryAux (h : RetryHandler) (f : Nat → Except ErrClass α) (last : Option ErrClass) :
    Nat → Nat → RetryRun α
  | _, 0 =>
    { outcome := match last with
        | some e => .error (.exc e)
        | none => .error .runtime,
      calls := 0, sleeps := [] }
  | attempt, rem + 1 =>
    match f attempt with
    | .ok a => { outcome := .ok a, calls := 1, sleeps := [] }
    | .error e =>
      if isRetryableExc e then
        let r := retryAux h f (some e) (attempt + 1) rem
        { outcome := r.outcome,
          calls := r.calls + 1,
          sleeps := (if 0 < rem then [h.calculate_delay attempt] else []) ++ r.sleeps }
      else { outcome := .error (.exc e), calls := 1, sleeps := [] }

/-- Model of `RetryHandler.execute_with_retry` over a pure model of the async
callable: `f n` is the outcome of the `n`-th (zero-based) invocation. -/
def RetryHandler.execute_with_retry (h : RetryHandler) (f : Nat → Except ErrClass α) : RetryRun α :=
  retryAux h f none 0 h.max_retries

/-! Delivery coordinator (`notify_telegram.py`) -/

/-- Model of `NotificationConfig` (`models.py` lines 148-205), with the source's
defaults.  Validation of `bot_token`/`channel_id` happens at the external
boundary and is not needed by the delivery flow. -/
structure NotificationConfig where
  bot_token : List Char := []
  channel_id : List Char := []
  max_retries : Nat := 3
  initial_retry_delay : Nat := 2
  retry_multiplier : Nat := 2
  enable_markdown : Bool := true
  max_message_length : Nat := 4096
  split_on_resource_boundary : Bool := true
  notify_on_no_drift : Bool := false
  include_workflow_link : Bool := true
  deriving DecidableEq

/-- The `RetryHandler` a `TelegramNotifier` builds from its config
(`notify_telegram.py` lines 82-86: `max_delay` is left at its default 8). -/
def notifierHandler (cfg : NotificationConfig) : RetryHandler :=
  { max_retries := cfg.max_retries,
    initial_delay := cfg.initial_retry_delay,
    multiplier := cfg.retry_multiplier,
    max_delay := 8 }

/-- The delivery-relevant state of a `TelegramNotification` record:
status, last error classification (`error_type`), message parts, and
whether `sent_at` was recorded. -/
structure RecordState where
  status : DeliveryStatus
  errorType : Option ErrClass
  parts : List NotificationPart
  sentAtSet : Bool
  deriving DecidableEq

/-- Observable result of one `send_notification` call: the record, the
total number of transport invocations, the backoff sleeps, the number of
0.1 s inter-part pacing sleeps, and any exception that escaped
`send_notification` uncaught. -/
structure SendRun where
  record : RecordState
  calls : Nat
  sleeps : List Nat
  pacing : Nat
  escaped : Option RunError
  deriving DecidableEq

/-- Result of the `for part in message_parts` loop. -/
structure SendPartsRun where
  parts : List NotificationPart
  calls : Nat
  sleeps : List Nat
  pacing : Nat
  err : Option RunError
  deriving DecidableEq

/-- The sequential per-part send loop (`notify_telegram.py` lines
198-204 together with `_send_message_part`, lines 232-272): each part is
sent through `execute_with_retry`; `transport` is indexed by a global call
counter `k`; a successful send stores the returned message id on the part;
after a successful non-final part a 0.1 s pacing sleep happens; the first
exception aborts the loop. -/
def sendParts (h : RetryHandler) (transport : Nat → Except ErrClass Nat) :
    List NotificationPart → Nat → SendPartsRun
  | [], _ => { parts := [], calls := 0, sleeps := [], pacing := 0, err := none }
  | p :: rest, k =>
    let r := h.execute_with_retry (fun attempt => transport (k + attempt))
    match r.outcome with
    | .ok mid =>
      let pace := if p.part_number < p.total_parts then 1 else 0
      let tail := sendParts h transport rest (k + r.calls)
      { parts := { p with telegram_message_id := some mid } :: tail.parts,
        calls := r.calls + tail.calls,
        sleeps := r.sleeps ++ tail.sleeps,
        pacing := pace + tail.pacing,
        err := tail.err }
    | .error e =>
      { parts := p :: rest, calls := r.calls, sleeps := r.sleeps, pacing := 0, err := some e }

/-- Model of `TelegramNotifier.send_notification` (`notify_telegram.py` lines
125-230) over a pure transport model (the bot is taken as initialized;
initialization is an external I/O concern).  The no-drift/no-notify path
marks the record `Sent` with no parts before any formatting or sending.
Otherwise the message is composed, split, and sent part by part; an
escaping `TelegramError` is caught by `except TelegramError` and the
record marked failed with that classification, while non-telegram
exceptions escape the function (`escaped`).  `none` models a
non-terminating `split_message` fallback run. -/
def send_notification (cfg : NotificationConfig) (event : DriftDetectionEvent)
    (transport : Nat → Except ErrClass Nat) : Option SendRun :=
  if !event.drift_detected && !cfg.notify_on_no_drift then
    some { record := { status := .sent, errorType := none, parts := [], sentAtSet := true },
           calls := 0, sleeps := [], pacing := 0, escaped := none }
  else
    let message := if event.drift_detected then format_drift_message event
                   else format_no_drift_message event
    match split_message message event cfg.max_message_length with
    | none => none
    | some message_parts =>
      let r := sendParts (notifierHandler cfg) transport message_parts 0
      match r.err with
      | none =>
        some { record := { status := .sent, errorType := none, parts := r.parts, sentAtSet := true },
               calls := r.calls, sleeps := r.sleeps, pacing := r.pacing, escaped := none }
      | some (.exc e) =>
        if isTelegramError e then
          some { record := { status := .failed, errorType := some e, parts := r.parts, sentAtSet := false },
                 calls := r.calls, sleeps := r.sleeps, pacing := r.pacing, escaped := none }
        else
          some { record := { status := .pending, errorType := none, parts := r.parts, sentAtSet := false },
                 calls := r.calls, sleeps := r.sleeps, pacing := r.pacing, escaped := some (.exc e) }
      | some .runtime =>
        some { record := { status := .pending, errorType := none, parts := r.parts, sentAtSet := false },
               calls := r.calls, sleeps := r.sleeps, pacing := r.pacing, escaped := some .runtime }

/-! Verification predicates -/

/-- Predicate `cio bs s` ("contains in order"): the strings `bs` occur in `s` as
disjoint substrings, in the given order, one occurrence consumed per
listed string. -/
def cio : List (List Char) → List Char → Prop
  | [], _ => True
  | b :: bs, s =>
    ∃ i : Fin (s.length + 1),
      (s.drop (i : Nat)).take b.length = b ∧ cio bs (s.drop ((i : Nat) + b.length))

instance cioDec : (bs : List (List Char)) → (s : List Char) → Decidable (cio bs s)
  | [], _ => .isTrue trivial
  | b :: bs, s => by
    haveI : ∀ s', Decidable (cio bs s') := fun s' => cioDec bs s'
    unfold cio
    exact Fintype.decidableExistsFintype

/-- Predicate `blocksInSections bs ss`: the strings `bs` embed, in order, into
distinct sections of `ss` (each selected section contains its string as a
substring). -/
def blocksInSections : List (List Char) → List (List Char) → Prop
  | [], _ => True
  | _ :: _, [] => False
  | b :: bs, s :: ss =>
    ((∃ t u, s = t ++ b ++ u) ∧ blocksInSections bs ss) ∨ blocksInSections (b :: bs) ss

/-- Whether a string ends with a newline. -/
def endsWithNl (b : List Char) : Bool :=
  match b.getLast? with
  | some c => c = nl
  | none => false

/-- A rendered block is "good" for boundary splitting when it contains no
blank line and does not end in a newline (then the blank-line split keeps
it inside a single section). -/
def goodBlockB (b : List Char) : Bool := noNlnlB b && !endsWithNl b

/-- The paragraph-level pass did not leave a single over-long chunk, i.e.
the hard line-boundary fallback of `split_message` is not entered. -/
def noForceSplitB (message : List Char) (eff : Int) : Bool :=
  match paragraphChunks message eff with
  | [c] => (c.length : Int) ≤ eff
  | _ => true

/-- Remove the injected part-indicator header from a fragment's content
(fragments of a single-part message carry no header). -/
def stripPart (p : NotificationPart) : List Char :=
  if 1 < p.total_parts then p.content.drop (partHeaderChars p.part_number p.total_parts).length
  else p.content

/-- Concatenation of all fragment contents minus the injected part
headers. -/
def strippedJoin (ps : List NotificationPart) : List Char := (ps.map stripPart).flatten

/-- The splitter round-trip property exactly as the spec states it: for a
composed drift message, concatenating all fragment contents minus the
injected part headers yields a string containing every resource block of
the original message, in original order, exactly once. -/
def roundTrip (e : DriftDetectionEvent) (maxLen : Nat) : Prop :=
  ∀ ps, split_message (format_drift_message e) e maxLen = some ps →
    cio (e.resource_changes.map format_resource_change) (strippedJoin ps)

/-- Length of the composed prefix of `format_drift_message` up to the
separator: the index at which the composer's own separator line starts. -/
def metaLen (e : DriftDetectionEvent) : Nat := (joinNl (metaLines e)).length + 1

/-! Sample data for witnesses -/

/-- A small drift event used to instantiate universally quantified
theorems. -/
def evA : DriftDetectionEvent :=
  { timestamp := ⟨2026, 1, 2, 3, 4, 5⟩,
    environment := chars "dev",
    branch := chars "main",
    workflow_run_id := chars "1",
    workflow_run_url := chars "http://x",
    drift_detected := true,
    resource_changes :=
      [{ resource_type := chars "aws_instance",
         resource_name := chars "web",
         action := .update,
         before := some [(chars "ami", chars "a1")],
         after := some [(chars "ami", chars "a2")] }] }

/-- Event `evA` with the drift flag cleared. -/
def evNoDrift : DriftDetectionEvent := { evA with drift_detected := false }

/-! Lemmas about the final numbering loop -/

theorem enumerateParts_length (total maxLen : Nat) :
    ∀ (cs : List (List Char)) (i : Nat), (enumerateParts total maxLen i cs).length = cs.length
  | [], _ => rfl
  | c :: cs, i => by
    simp [enumerateParts, enumerateParts_length total maxLen cs (i + 1)]

theorem enumerateParts_get (total maxLen : Nat) :
    ∀ (cs : List (List Char)) (i j : Nat) (h : j < (enumerateParts total maxLen i cs).length),
      ((enumerateParts total maxLen i cs).get ⟨j, h⟩).part_number = i + j ∧
      ((enumerateParts total maxLen i cs).get ⟨j, h⟩).total_parts = total
  | [], i, j, h => by simp [enumerateParts] at h
  | c :: cs, i, 0, h => by simp [enumerateParts]
  | c :: cs, i, j + 1, h => by
    have ih := enumerateParts_get total maxLen cs (i + 1) j (by
      simpa [enumerateParts] using h)
    simpa [enumerateParts, Nat.add_assoc, Nat.add_comm 1 j] using ih

/-! Claim theorems: backoff policy, suppression, single fragment -/

/-- Claim C5: `calculate_delay` is the pure mapping
`attempt ↦ min(initial_delay * multiplier ^ attempt, max_delay)`; with the
source defaults (2, 2, 8) it yields 2, 4, 8 for the first three attempts;
and for every attempt the delay never exceeds `max_delay`. -/
theorem calculate_delay_policy :
    (∀ (h : RetryHandler) (n : Nat),
        h.calculate_delay n = min (h.initial_delay * h.multiplier ^ n) h.max_delay) ∧
    (RetryHandler.calculate_delay {} 0 = 2 ∧
     RetryHandler.calculate_delay {} 1 = 4 ∧
     RetryHandler.calculate_delay {} 2 = 8) ∧
    (∀ (h : RetryHandler) (n : Nat), h.calculate_delay n ≤ h.max_delay) :=
  ⟨fun _ _ => rfl, ⟨rfl, rfl, rfl⟩, fun h n => Nat.min_le_right _ _⟩

/-- Claim C6: with `drift_detected = false` and `notify_on_no_drift = false`,
`send_notification` performs zero transport calls and returns a `Sent`
record with zero fragments and a recorded sent time. -/
theorem no_drift_suppression (cfg : NotificationConfig) (event : DriftDetectionEvent)
    (transport : Nat → Except ErrClass Nat)
    (h1 : event.drift_detected = false) (h2 : cfg.notify_on_no_drift = false) :
    send_notification cfg event transport =
      some { record := { status := .sent, errorType := none, parts := [], sentAtSet := true },
             calls := 0, sleeps := [], pacing := 0, escaped := none } := by
  unfold send_notification
  rw [h1, h2]
  rfl

/-- Witness for C6 at a concrete configuration, event and transport. -/
theorem no_drift_suppression_witness :
    send_notification {} evNoDrift (fun _ => .ok 0) =
      some { record := { status := .sent, errorType := none, parts := [], sentAtSet := true },
             calls := 0, sleeps := [], pacing := 0, escaped := none } :=
  no_drift_suppression {} evNoDrift (fun _ => .ok 0) rfl rfl

/-- Claim C7: a message whose length is at most the effective limit
(`max_length` minus the fixed 100-character buffer) splits into exactly one
fragment, numbered 1/1, whose content is the message itself with no
injected header. -/
theorem split_message_single (message : List Char) (event : DriftDetectionEvent) (maxLen : Nat)
    (h : (message.length : Int) ≤ (maxLen : Int) - 100) :
    split_message message event maxLen =
      some [{ part_number := 1, total_parts := 1, content := message,
              telegram_message_id := none }] := by
  unfold split_message MESSAGE_BUFFER
  rw [if_pos (by exact_mod_cast h)]

/-- Witness for C7 at a concrete message and limit. -/
theorem split_message_single_witness :
    split_message (chars "ok") evA 4096 =
      some [{ part_number := 1, total_parts := 1, content := chars "ok",
              telegram_message_id := none }] :=
  split_message_single (chars "ok") evA 4096 (by decide)

/-- Claim C10: every fragment list returned by `split_message` is
internally consistent: the fragment at 1-based position `i` carries
`part_number = i`, and every fragment's `total_parts` equals the length of
the returned list. -/
theorem split_parts_consistent (message : List Char) (event : DriftDetectionEvent)
    (maxLen : Nat) (ps : List NotificationPart)
    (hs : split_message message event maxLen = some ps)
    (i : Nat) (hi : i < ps.length) :
    (ps.get ⟨i, hi⟩).part_number = i + 1 ∧ (ps.get ⟨i, hi⟩).total_parts = ps.length := by
  unfold split_message at hs
  by_cases hc : (message.length : Int) ≤ (maxLen : Int) - (MESSAGE_BUFFER : Int)
  · rw [if_pos hc] at hs
    cases hs
    match i, hi with
    | 0, _ => exact ⟨rfl, rfl⟩
  · rw [if_neg hc] at hs
    rw [Option.map_eq_some'] at hs
    obtain ⟨pcs, _, hps⟩ := hs
    subst hps
    have hlen := enumerateParts_length pcs.length maxLen pcs 1
    have hget := enumerateParts_get pcs.length maxLen pcs 1 i hi
    exact ⟨by rw [hget.1, Nat.add_comm], hget.2.trans hlen.symm⟩

/-- Witness for C10 at a concrete split. -/
theorem split_parts_consistent_witness :
    (([{ part_number := 1, total_parts := 1, content := chars "ok",
         telegram_message_id := none }] : List NotificationPart).get
        ⟨0, Nat.zero_lt_one⟩).part_number = 0 + 1 ∧
    (([{ part_number := 1, total_parts := 1, content := chars "ok",
         telegram_message_id := none }] : List NotificationPart).get
        ⟨0, Nat.zero_lt_one⟩).total_parts = 1 :=
  split_parts_consistent (chars "ok") evA 4096
    [{ part_number := 1, total_parts := 1, content := chars "ok",
       telegram_message_id := none }] (by decide) 0 Nat.zero_lt_one

/-! Claim C1: the hard size limit -/

set_option maxRecDepth 4000 in
/-- Claim C1 (failing input): with `max_length = 120` (an accepted value)
and a message made of two 150-character paragraphs, both produced
fragments have content of length 123 = `max_length + 3`: the final length
guard cuts to `max_length - 3` characters but then appends the
six-character escaped ellipsis `"\\.\\.\\."`, so truncated fragments
always exceed the hard limit by 3.  This contradicts the guard's own
comment ("Ensure we don't exceed max length") and, at the default
`max_length = 4096`, the model constraint
`content: str = Field(..., max_length=4096)` on `NotificationPart`. -/
theorem split_size_violation :
    (split_message (List.replicate 150 'a' ++ ['\n', '\n'] ++ List.replicate 150 'b') evA 120).map
        (List.map (fun p => p.content.length)) = some [123, 123] ∧ 120 < 123 :=
  ⟨by decide, by decide⟩

/-! Claim C8: the escaper contract -/

theorem foldl_replaceEsc (cs : List Char) (hb : '\\' ∉ cs) (hnd : cs.Nodup) :
    ∀ t : List Char,
      cs.foldl replaceEsc t = t.flatMap (fun x => if x ∈ cs then ['\\', x] else [x]) := by
  induction cs with
  | nil =>
    intro t
    simp
  | cons c cs ih =>
    intro t
    have hb' : '\\' ∉ cs := fun h => hb (List.mem_cons_of_mem c h)
    have hcc : c ∉ cs := (List.nodup_cons.mp hnd).1
    have hnd' : cs.Nodup := (List.nodup_cons.mp hnd).2
    show cs.foldl replaceEsc (replaceEsc t c) = _
    rw [ih hb' hnd' (replaceEsc t c)]
    unfold replaceEsc
    rw [List.flatMap_assoc]
    congr 1
    funext x
    by_cases hx : x = c
    · subst hx
      simp only [if_pos rfl, if_pos (List.mem_cons_self x cs)]
      simp [hb', hcc]
    · simp only [if_neg hx]
      by_cases hxs : x ∈ cs
      · simp [hxs, List.mem_cons, hx]
      · simp [hxs, List.mem_cons, hx]

theorem escapeSpec_id (t : List Char) (h : ∀ c ∈ t, c ∉ specialChars) : escapeSpec t = t := by
  induction t with
  | nil => rfl
  | cons c t ih =>
    unfold escapeSpec at *
    simp only [List.flatMap_cons]
    rw [if_neg (h c (List.mem_cons_self c t)), ih (fun x hx => h x (List.mem_cons_of_mem c hx))]
    rfl

/-- Claim C8: `escape_markdown` prefixes every occurrence of a character
of the fixed escape set with the escape marker and leaves every other
character untouched (it agrees with the spec-side `escapeSpec`), and any
string without characters of the escape set is returned unchanged. -/
theorem escape_contract (t : List Char) :
    escape_markdown t = escapeSpec t ∧
    ((∀ c ∈ t, c ∉ specialChars) → escape_markdown t = t) := by
  have h1 : escape_markdown t = escapeSpec t :=
    foldl_replaceEsc specialChars (by decide) (by decide) t
  exact ⟨h1, fun h => h1.trans (escapeSpec_id t h)⟩

/-- Witness for C8: a string free of reserved characters is unchanged. -/
theorem escape_contract_witness : escape_markdown (chars "hello") = chars "hello" :=
  (escape_contract (chars "hello")).2 (by decide)

/-! Claim C9: change summaries -/

theorem foldl_append_filter_map {K V : Type} (f : K → V) (p : K → Prop) [DecidablePred p] :
    ∀ (ks : List K) (acc : List V),
      ks.foldl (fun acc k => if p k then acc ++ [f k] else acc) acc =
        acc ++ (ks.filter (fun k => p k)).map f := by
  intro ks
  induction ks with
  | nil => intro acc; simp
  | cons k ks ih =>
    intro acc
    by_cases hk : p k
    · simp only [List.foldl_cons, if_pos hk, ih]
      rw [List.filter_cons_of_pos (by simpa using hk)]
      simp
    · simp only [List.foldl_cons, if_neg hk, ih]
      rw [List.filter_cons_of_neg (by simpa using hk)]

theorem change_summary_some (rt rn : List Char) (act : ActionType) (b a : AttrDict) :
    ({ resource_type := rt, resource_name := rn, action := act,
       before := some b, after := some a } : ResourceChange).change_summary =
      (if b = [] ∨ a = [] then [actionFallback act]
       else
        let changes := (sortedAllKeys b a).foldl
          (fun acc k => if dictGet b k ≠ dictGet a k then acc ++ [diffLine b a k] else acc) []
        if changes = [] then [actionFallback act] else changes) := rfl

/-- Claim C9 (counterexample to the claim as stated): a change whose
`before` is `some {}` (present but empty) and whose `after` holds a
differing key does not produce the sorted diff list the claim promises for
"both mappings present" — the Python truthiness test `not self.before`
sends empty dicts to the `"Action: <action>"` fallback. -/
theorem change_summary_empty_dict_cex :
    ({ resource_type := chars "t", resource_name := chars "n", action := .create,
       before := some [], after := some [(chars "k", chars "v")] } : ResourceChange).change_summary
      ≠ changeSummarySpec .create [] [(chars "k", chars "v")] := by
  decide

/-- Claim C9 (amended): when both attribute mappings are present *and
non-empty*, `change_summary` is the sorted list of `key: before→after`
lines over exactly the keys whose values differ (with the `Action:`
fallback if none differ, i.e. it agrees with `changeSummarySpec`); when
either mapping is absent *or empty*, it is the single-element
`["Action: <action>"]` fallback. -/
theorem change_summary_correct (c : ResourceChange) :
    (∀ b a, c.before = some b → c.after = some a → b ≠ [] → a ≠ [] →
       c.change_summary = changeSummarySpec c.action b a) ∧
    ((c.before = none ∨ c.after = none ∨ c.before = some [] ∨ c.after = some []) →
       c.change_summary = [actionFallback c.action]) := by
  obtain ⟨rt, rn, act, bo, af⟩ := c
  constructor
  · intro b a hb ha hbne hane
    have hb' : bo = some b := hb
    have ha' : af = some a := ha
    subst hb'
    subst ha'
    rw [change_summary_some]
    rw [if_neg (by
      rintro (h | h)
      · exact hbne h
      · exact hane h)]
    show (let changes := _; if changes = [] then _ else changes) = _
    rw [foldl_append_filter_map (diffLine b a) (fun k => dictGet b k ≠ dictGet a k)
      (sortedAllKeys b a) []]
    rfl
  · intro hcase
    rcases hcase with h | h | h | h
    · have h' : bo = none := h
      subst h'
      cases af <;> rfl
    · have h' : af = none := h
      subst h'
      cases bo <;> rfl
    · have h' : bo = some [] := h
      subst h'
      cases af with
      | none => rfl
      | some a => rw [change_summary_some, if_pos (Or.inl rfl)]
    · have h' : af = some [] := h
      subst h'
      cases bo with
      | none => rfl
      | some b => rw [change_summary_some, if_pos (Or.inr rfl)]

/-- Witness for the amended C9 at a concrete change with both mappings
present and non-empty. -/
theorem change_summary_correct_witness :
    ({ resource_type := chars "t", resource_name := chars "n", action := .update,
       before := some [(chars "b", chars "1"), (chars "a", chars "0")],
       after := some [(chars "a", chars "9"), (chars "b", chars "1")] } : ResourceChange).change_summary
      = changeSummarySpec .update [(chars "b", chars "1"), (chars "a", chars "0")]
          [(chars "a", chars "9"), (chars "b", chars "1")] :=
  (change_summary_correct _).1 _ _ rfl rfl (by decide) (by decide)

/-! Retry and delivery lemmas -/

theorem retryAux_fatal {α : Type} (h : RetryHandler) (f : Nat → Except ErrClass α)
    (last : Option ErrClass) (attempt rem : Nat) (e : ErrClass) (hrem : 1 ≤ rem)
    (hf : f attempt = .error e) (hre : isRetryableExc e = false) :
    retryAux h f last attempt rem = { outcome := .error (.exc e), calls := 1, sleeps := [] } := by
  cases rem with
  | zero => omega
  | succ r => simp [retryAux, hf, hre]

theorem retryAux_exhaust {α : Type} (h : RetryHandler) (f : Nat → Except ErrClass α) (e : ErrClass)
    (hf : ∀ n, f n = .error e) (hre : isRetryableExc e = true) :
    ∀ rem : Nat, 1 ≤ rem → ∀ (attempt : Nat) (last : Option ErrClass),
      retryAux h f last attempt rem =
        { outcome := .error (.exc e), calls := rem,
          sleeps := (List.range' attempt (rem - 1)).map h.calculate_delay } := by
  intro rem
  induction rem with
  | zero => omega
  | succ r ih =>
    intro _ attempt last
    cases r with
    | zero => simp [retryAux, hf attempt, hre]
    | succ r' =>
      have ihr := ih (by omega) (attempt + 1) (some e)
      unfold retryAux
      rw [hf attempt]
      simp only [hre, if_true, ihr, if_pos (Nat.succ_pos r'), Nat.succ_sub_one]
      rw [List.range'_succ, List.map_cons]
      rfl

theorem execute_with_retry_exhaust {α : Type} (h : RetryHandler) (f : Nat → Except ErrClass α)
    (e : ErrClass) (hf : ∀ n, f n = .error e) (hre : isRetryableExc e = true)
    (hmr : 1 ≤ h.max_retries) :
    h.execute_with_retry f =
      { outcome := .error (.exc e), calls := h.max_retries,
        sleeps := (List.range (h.max_retries - 1)).map h.calculate_delay } := by
  unfold RetryHandler.execute_with_retry
  rw [retryAux_exhaust h f e hf hre h.max_retries hmr 0 none]
  rw [List.range'_eq_map_range, List.map_map]
  exact congrArg _ (List.map_congr_left (fun j _ => by simp))

theorem execute_with_retry_fatal {α : Type} (h : RetryHandler) (f : Nat → Except ErrClass α)
    (e : ErrClass) (hf : f 0 = .error e) (hre : isRetryableExc e = false)
    (hmr : 1 ≤ h.max_retries) :
    h.execute_with_retry f = { outcome := .error (.exc e), calls := 1, sleeps := [] } :=
  retryAux_fatal h f none 0 h.max_retries e hmr hf hre

theorem sendParts_err (h : RetryHandler) (transport : Nat → Except ErrClass Nat)
    (p : NotificationPart) (rest : List NotificationPart) (k : Nat) (er : RunError)
    (hr : (h.execute_with_retry (fun a => transport (k + a))).outcome = .error er) :
    sendParts h transport (p :: rest) k =
      { parts := p :: rest,
        calls := (h.execute_with_retry (fun a => transport (k + a))).calls,
        sleeps := (h.execute_with_retry (fun a => transport (k + a))).sleeps,
        pacing := 0, err := some er } := by
  simp only [sendParts]
  rw [hr]

theorem send_notification_fail (cfg : NotificationConfig) (event : DriftDetectionEvent)
    (transport : Nat → Except ErrClass Nat) (p : NotificationPart)
    (rest : List NotificationPart) (e : ErrClass)
    (hdrift : event.drift_detected = true)
    (hp : split_message (format_drift_message event) event cfg.max_message_length = some (p :: rest))
    (her : ((notifierHandler cfg).execute_with_retry (fun a => transport (0 + a))).outcome
             = .error (.exc e))
    (hte : isTelegramError e = true) :
    send_notification cfg event transport =
      some { record := { status := .failed, errorType := some e, parts := p :: rest,
                         sentAtSet := false },
             calls := ((notifierHandler cfg).execute_with_retry (fun a => transport (0 + a))).calls,
             sleeps := ((notifierHandler cfg).execute_with_retry (fun a => transport (0 + a))).sleeps,
             pacing := 0, escaped := none } := by
  unfold send_notification
  simp only [hdrift, Bool.not_true, Bool.false_and, Bool.false_eq_true, if_false, if_true]
  rw [hp]
  simp only [sendParts_err _ _ _ _ _ _ her, hte, if_true]

/-- Claim C3: a transport failing on every attempt with a retryable,
telegram-typed classification makes exactly `max_retries` send attempts,
waits the policy-computed backoff delay between consecutive attempts, and
leaves the notification record `Failed` carrying that classification. -/
theorem retry_exhaustion (cfg : NotificationConfig) (event : DriftDetectionEvent)
    (transport : Nat → Except ErrClass Nat) (e : ErrClass)
    (hmr : 1 ≤ cfg.max_retries)
    (htr : ∀ n, transport n = .error e)
    (hre : isRetryableExc e = true)
    (hte : isTelegramError e = true)
    (hdrift : event.drift_detected = true)
    (hsome : (split_message (format_drift_message event) event cfg.max_message_length).isSome)
    (hne : split_message (format_drift_message event) event cfg.max_message_length ≠ some []) :
    ((notifierHandler cfg).execute_with_retry transport).calls = cfg.max_retries ∧
    ((notifierHandler cfg).execute_with_retry transport).sleeps =
      (List.range (cfg.max_retries - 1)).map (notifierHandler cfg).calculate_delay ∧
    (send_notification cfg event transport).map
        (fun r => (r.calls, r.record.status, r.record.errorType, r.escaped)) =
      some (cfg.max_retries, .failed, some e, none) ∧
    (send_notification cfg event transport).map SendRun.sleeps =
      some ((List.range (cfg.max_retries - 1)).map (notifierHandler cfg).calculate_delay) := by
  have hmr' : 1 ≤ (notifierHandler cfg).max_retries := hmr
  have hex := execute_with_retry_exhaust (notifierHandler cfg) transport e htr hre hmr'
  have hex0 := execute_with_retry_exhaust (notifierHandler cfg) (fun a => transport (0 + a)) e
    (fun n => htr (0 + n)) hre hmr'
  obtain ⟨parts, hp⟩ := Option.isSome_iff_exists.mp hsome
  cases parts with
  | nil => exact absurd hp hne
  | cons p rest =>
    have hsend := send_notification_fail cfg event transport p rest e hdrift hp
      (by rw [hex0]) hte
    rw [hex0] at hsend
    refine ⟨by rw [hex]; rfl, by rw [hex]; rfl, ?_, ?_⟩
    · rw [hsend]
      rfl
    · rw [hsend]
      rfl

set_option maxRecDepth 8000 in
/-- Witness for C3: default config, a concrete drifted event, and a
transport that always fails with `NetworkError`. -/
theorem retry_exhaustion_witness :
    ((notifierHandler {}).execute_with_retry
        (fun _ => (.error .networkError : Except ErrClass Nat))).calls = 3 ∧
    ((notifierHandler {}).execute_with_retry
        (fun _ => (.error .networkError : Except ErrClass Nat))).sleeps = [2, 4] ∧
    (send_notification {} evA (fun _ => .error .networkError)).map
        (fun r => (r.calls, r.record.status, r.record.errorType, r.escaped)) =
      some (3, .failed, some .networkError, none) ∧
    (send_notification {} evA (fun _ => .error .networkError)).map SendRun.sleeps =
      some [2, 4] := by
  have h := retry_exhaustion {} evA (fun _ => .error .networkError) .networkError
    (by decide) (fun _ => rfl) rfl rfl rfl (by decide) (by decide)
  exact ⟨h.1, h.2.1, h.2.2.1, h.2.2.2⟩

/-- Claim C4: a transport failing on the first attempt with a fatal
(non-retryable) classification causes exactly one send attempt, no backoff
sleeps, and an immediate `Failed` record; and the retryability predicate
accepts exactly the transport-level transient classifications (connection
error, timeout, and the rate-limit/retry-after signal). -/
theorem fatal_short_circuit (cfg : NotificationConfig) (event : DriftDetectionEvent)
    (transport : Nat → Except ErrClass Nat) (e : ErrClass)
    (hmr : 1 ≤ cfg.max_retries)
    (htr : transport 0 = .error e)
    (hre : isRetryableExc e = false)
    (hte : isTelegramError e = true)
    (hdrift : event.drift_detected = true)
    (hsome : (split_message (format_drift_message event) event cfg.max_message_length).isSome)
    (hne : split_message (format_drift_message event) event cfg.max_message_length ≠ some []) :
    ((notifierHandler cfg).execute_with_retry transport).calls = 1 ∧
    ((notifierHandler cfg).execute_with_retry transport).sleeps = [] ∧
    (send_notification cfg event transport).map
        (fun r => (r.calls, r.sleeps, r.record.status, r.record.errorType, r.escaped)) =
      some (1, [], .failed, some e, none) ∧
    (∀ c, isRetryableExc c = true ↔
       (c = .connectionError ∨ c = .timeoutError ∨ c = .networkError ∨
        c = .timedOut ∨ c = .retryAfter)) := by
  have hmr' : 1 ≤ (notifierHandler cfg).max_retries := hmr
  have hex := execute_with_retry_fatal (notifierHandler cfg) transport e htr hre hmr'
  have hex0 := execute_with_retry_fatal (notifierHandler cfg) (fun a => transport (0 + a)) e
    htr hre hmr'
  obtain ⟨parts, hp⟩ := Option.isSome_iff_exists.mp hsome
  cases parts with
  | nil => exact absurd hp hne
  | cons p rest =>
    have hsend := send_notification_fail cfg event transport p rest e hdrift hp
      (by rw [hex0]) hte
    rw [hex0] at hsend
    refine ⟨by rw [hex], by rw [hex], by rw [hsend]; rfl, ?_⟩
    intro c
    cases c <;> simp [isRetryableExc]

set_option maxRecDepth 8000 in
/-- Witness for C4: default config, a concrete drifted event, and a
transport that fails immediately with `BadRequest`. -/
theorem fatal_short_circuit_witness :
    ((notifierHandler {}).execute_with_retry
        (fun _ => (.error .badRequest : Except ErrClass Nat))).calls = 1 ∧
    ((notifierHandler {}).execute_with_retry
        (fun _ => (.error .badRequest : Except ErrClass Nat))).sleeps = [] ∧
    (send_notification {} evA (fun _ => .error .badRequest)).map
        (fun r => (r.calls, r.sleeps, r.record.status, r.record.errorType, r.escaped)) =
      some (1, [], .failed, some .badRequest, none) ∧
    (∀ c, isRetryableExc c = true ↔
       (c = .connectionError ∨ c = .timeoutError ∨ c = .networkError ∨
        c = .timedOut ∨ c = .retryAfter)) :=
  fatal_short_circuit {} evA (fun _ => .error .badRequest) .badRequest
    (by decide) rfl rfl rfl rfl (by decide) (by decide)

/-! Lemmas about in-order containment -/

theorem cio_nil (s : List Char) : cio [] s := trivial

theorem cio_cons_iff (b : List Char) (bs : List (List Char)) (s : List Char) :
    cio (b :: bs) s ↔ ∃ t u, s = t ++ b ++ u ∧ cio bs u := by
  constructor
  · rintro ⟨i, htake, hrest⟩
    refine ⟨s.take i, s.drop ((i : Nat) + b.length), ?_, hrest⟩
    rw [List.append_assoc]
    conv_lhs => rw [← List.take_append_drop (i : Nat) s]
    congr 1
    conv_lhs => rw [← List.take_append_drop b.length (s.drop (i : Nat))]
    rw [htake, List.drop_drop, Nat.add_comm]
  · rintro ⟨t, u, hsu, hcio⟩
    subst hsu
    have hlen : (t ++ b ++ u).length = t.length + b.length + u.length := by
      simp [Nat.add_assoc]
    refine ⟨⟨t.length, by omega⟩, ?_, ?_⟩
    · show ((t ++ b ++ u).drop t.length).take b.length = b
      rw [List.append_assoc, List.drop_left, List.take_left]
    · show cio bs ((t ++ b ++ u).drop (t.length + b.length))
      have hd : (t ++ b ++ u).drop (t.length + b.length) = u := by
        rw [← List.length_append t b, List.drop_left]
      rw [hd]
      exact hcio

theorem cio_cons_of (b : List Char) (bs : List (List Char)) (t u : List Char)
    (h : cio bs u) : cio (b :: bs) (t ++ b ++ u) :=
  (cio_cons_iff b bs _).mpr ⟨t, u, rfl, h⟩

theorem cio_append_right (bs : List (List Char)) :
    ∀ (s v : List Char), cio bs s → cio bs (s ++ v) := by
  induction bs with
  | nil => intro s v _; exact trivial
  | cons b bs ih =>
    intro s v hc
    obtain ⟨t, u, hsu, hrest⟩ := (cio_cons_iff b bs s).mp hc
    subst hsu
    refine (cio_cons_iff b bs _).mpr ⟨t, u ++ v, ?_, ih u v hrest⟩
    simp [List.append_assoc]

theorem cio_prepend (bs : List (List Char)) (t s : List Char) (h : cio bs s) :
    cio bs (t ++ s) := by
  cases bs with
  | nil => exact trivial
  | cons b bs =>
    obtain ⟨t', u, hsu, hrest⟩ := (cio_cons_iff b bs s).mp h
    subst hsu
    refine (cio_cons_iff b bs _).mpr ⟨t ++ t', u, ?_, hrest⟩
    simp [List.append_assoc]

theorem cio_append (bs1 : List (List Char)) :
    ∀ (bs2 : List (List Char)) (s1 s2 : List Char),
      cio bs1 s1 → cio bs2 s2 → cio (bs1 ++ bs2) (s1 ++ s2) := by
  induction bs1 with
  | nil => intro bs2 s1 s2 _ h2; exact cio_prepend bs2 s1 s2 h2
  | cons b bs ih =>
    intro bs2 s1 s2 h1 h2
    obtain ⟨t, u, hsu, hrest⟩ := (cio_cons_iff b bs s1).mp h1
    subst hsu
    have := ih bs2 u s2 hrest h2
    refine (cio_cons_iff b (bs ++ bs2) _).mpr ⟨t, u ++ s2, ?_, this⟩
    simp [List.append_assoc]

/-! Lemmas about the blank-line split -/

theorem noNlnlB_cons₂ (c d : Char) (rest : List Char) :
    noNlnlB (c :: d :: rest) = if c = '\n' ∧ d = '\n' then false else noNlnlB (d :: rest) := rfl

theorem pySplitNlGo_cons₂ (acc : List Char) (c d : Char) (rest : List Char) :
    pySplitNlGo acc (c :: d :: rest) =
      if c = '\n' ∧ d = '\n' then acc.reverse :: pySplitNlGo [] rest
      else pySplitNlGo (c :: acc) (d :: rest) := rfl

theorem endsWithNl_cons (a : Char) (A : List Char) (h : A ≠ []) :
    endsWithNl (a :: A) = endsWithNl A := by
  cases A with
  | nil => exact absurd rfl h
  | cons b A' =>
    unfold endsWithNl
    rw [List.getLast?_cons_cons]

theorem endsWithNl_single (a : Char) : endsWithNl [a] = decide (a = '\n') := rfl

theorem noNlnlB_cons_elim (c d : Char) (rest : List Char)
    (h : noNlnlB (c :: d :: rest) = true) :
    ¬(c = '\n' ∧ d = '\n') ∧ noNlnlB (d :: rest) = true := by
  rw [noNlnlB_cons₂] at h
  by_cases hc : c = '\n' ∧ d = '\n'
  · rw [if_pos hc] at h
    exact absurd h (by simp)
  · rw [if_neg hc] at h
    exact ⟨hc, h⟩

theorem pySplitNlGo_concat (B : List Char) :
    ∀ (A acc : List Char), noNlnlB A = true → endsWithNl A = false →
      pySplitNlGo acc (A ++ '\n' :: '\n' :: B) = (acc.reverse ++ A) :: pySplitNl B := by
  intro A
  induction A with
  | nil =>
    intro acc _ _
    rw [List.nil_append, pySplitNlGo_cons₂, if_pos ⟨rfl, rfl⟩, List.append_nil]
    rfl
  | cons a A' ih =>
    intro acc hno hend
    cases A' with
    | nil =>
      have ha : ¬ a = '\n' := by
        rw [endsWithNl_single] at hend
        simpa using hend
      rw [List.cons_append, List.nil_append, pySplitNlGo_cons₂,
        if_neg (fun hc => ha hc.1), pySplitNlGo_cons₂, if_pos ⟨rfl, rfl⟩]
      simp
      rfl
    | cons a' A'' =>
      obtain ⟨hcond, hno'⟩ := noNlnlB_cons_elim a a' A'' hno
      have hend' : endsWithNl (a' :: A'') = false := by
        rw [endsWithNl_cons a (a' :: A'') (by simp)] at hend
        exact hend
      rw [List.cons_append, List.cons_append, pySplitNlGo_cons₂, if_neg hcond,
        ← List.cons_append, ih (a :: acc) hno' hend']
      simp

theorem pySplitNlGo_noNlnl :
    ∀ (A acc : List Char), noNlnlB A = true → pySplitNlGo acc A = [acc.reverse ++ A] := by
  intro A
  induction A with
  | nil => intro acc _; simp [pySplitNlGo]
  | cons a A' ih =>
    intro acc hno
    cases A' with
    | nil => simp [pySplitNlGo]
    | cons a' A'' =>
      obtain ⟨hcond, hno'⟩ := noNlnlB_cons_elim a a' A'' hno
      rw [pySplitNlGo_cons₂, if_neg hcond, ih (a :: acc) hno']
      simp

theorem pySplitNl_concat (A B : List Char) (h1 : noNlnlB A = true) (h2 : endsWithNl A = false) :
    pySplitNl (A ++ '\n' :: '\n' :: B) = A :: pySplitNl B := by
  unfold pySplitNl
  rw [pySplitNlGo_concat B A [] h1 h2]
  simp
  rfl

theorem pySplitNl_noNlnl (A : List Char) (h : noNlnlB A = true) : pySplitNl A = [A] := by
  unfold pySplitNl
  rw [pySplitNlGo_noNlnl A [] h]
  simp

theorem noNlnl_cons_nl (A : List Char) (h : noNlnlB A = true) (hh : A.head? ≠ some '\n') :
    noNlnlB ('\n' :: A) = true := by
  cases A with
  | nil => rfl
  | cons a A' =>
    rw [noNlnlB_cons₂, if_neg (fun hc => hh (by rw [List.head?_cons, hc.2]))]
    exact h

theorem noNlnl_append_nl :
    ∀ A : List Char, noNlnlB A = true → endsWithNl A = false → noNlnlB (A ++ ['\n']) = true := by
  intro A
  induction A with
  | nil => intro _ _; rfl
  | cons a A' ih =>
    intro hno hend
    cases A' with
    | nil =>
      have ha : ¬ a = '\n' := by
        rw [endsWithNl_single] at hend
        simpa using hend
      rw [List.cons_append, List.nil_append, noNlnlB_cons₂, if_neg (fun hc => ha hc.1)]
      rfl
    | cons a' A'' =>
      obtain ⟨hcond, hno'⟩ := noNlnlB_cons_elim a a' A'' hno
      have hend' : endsWithNl (a' :: A'') = false := by
        rw [endsWithNl_cons a (a' :: A'') (by simp)] at hend
        exact hend
      have ih' := ih hno' hend'
      rw [List.cons_append] at ih'
      show noNlnlB (a :: a' :: (A'' ++ ['\n'])) = true
      rw [noNlnlB_cons₂, if_neg hcond]
      exact ih'

/-! Lemmas about the composer -/

theorem joinSep_cons₂ (sep x y : List Char) (rest : List (List Char)) :
    joinSep sep (x :: y :: rest) = x ++ sep ++ joinSep sep (y :: rest) := rfl

theorem joinSep_single (sep x : List Char) : joinSep sep [x] = x := rfl

theorem joinSep_cons_exists (sep x : List Char) (xs : List (List Char)) :
    ∃ T, joinSep sep (x :: xs) = x ++ T := by
  cases xs with
  | nil => exact ⟨[], (List.append_nil x).symm⟩
  | cons y rest =>
    exact ⟨sep ++ joinSep sep (y :: rest), by rw [joinSep_cons₂, List.append_assoc]⟩

theorem joinNl_single (x : List Char) : joinNl [x] = x := rfl

theorem joinNl_cons₂ (x y : List Char) (rest : List (List Char)) :
    joinNl (x :: y :: rest) = x ++ '\n' :: joinNl (y :: rest) := by
  unfold joinNl
  rw [joinSep_cons₂, List.append_assoc]
  rfl

theorem joinNl_append :
    ∀ (X Y : List (List Char)), X ≠ [] → Y ≠ [] →
      joinNl (X ++ Y) = joinNl X ++ '\n' :: joinNl Y := by
  intro X
  induction X with
  | nil => intro Y h _; exact absurd rfl h
  | cons x X' ih =>
    intro Y _ hY
    cases X' with
    | nil =>
      cases Y with
      | nil => exact absurd rfl hY
      | cons y Y' =>
        show joinNl (x :: y :: Y') = joinNl [x] ++ '\n' :: joinNl (y :: Y')
        rw [joinNl_cons₂, joinNl_single]
    | cons x2 X'' =>
      show joinNl (x :: (x2 :: X'' ++ Y)) = joinNl (x :: x2 :: X'') ++ '\n' :: joinNl Y
      rw [show x2 :: X'' ++ Y = x2 :: (X'' ++ Y) from rfl]
      rw [joinNl_cons₂, ← List.cons_append, ih Y (by simp) hY, joinNl_cons₂]
      simp [List.append_assoc]

/-! Facts about rendered blocks -/

theorem actionEmoji_ne_nl (a : ActionType) : actionEmoji a ≠ '\n' := by
  cases a <;> decide

theorem actionEmoji_not_space (a : ActionType) : isPySpace (actionEmoji a) = false := by
  cases a <;> decide

theorem fmt_head_cons (c : ResourceChange) :
    ∃ rest, format_resource_change c = actionEmoji c.action :: rest := by
  unfold format_resource_change joinNl
  obtain ⟨T, hT⟩ := joinSep_cons_exists ['\n']
    ([actionEmoji c.action] ++ chars " *" ++ escape_markdown c.display_name ++ chars "*")
    (c.change_summary.map (fun s => chars "  • " ++ escape_markdown s))
  rw [hT]
  exact ⟨chars " *" ++ escape_markdown c.display_name ++ chars "*" ++ T, by simp⟩

theorem fmt_ne_nil (c : ResourceChange) : format_resource_change c ≠ [] := by
  obtain ⟨rest, h⟩ := fmt_head_cons c
  rw [h]
  simp

theorem fmt_head_ne_nl (c : ResourceChange) :
    (format_resource_change c).head? ≠ some '\n' := by
  obtain ⟨rest, h⟩ := fmt_head_cons c
  rw [h, List.head?_cons]
  intro hc
  exact actionEmoji_ne_nl c.action (Option.some.inj hc)

theorem fmt_hasNonWs (c : ResourceChange) : hasNonWs (format_resource_change c) = true := by
  obtain ⟨rest, h⟩ := fmt_head_cons c
  rw [h]
  unfold hasNonWs
  rw [List.any_cons, actionEmoji_not_space c.action]
  rfl

theorem goodBlock_elim (b : List Char) (h : goodBlockB b = true) :
    noNlnlB b = true ∧ endsWithNl b = false := by
  unfold goodBlockB at h
  rw [Bool.and_eq_true] at h
  exact ⟨h.1, by simpa using h.2⟩

theorem blank_false_of_inside (b s t u : List Char) (hs : s = t ++ b ++ u)
    (hb : hasNonWs b = true) : blank s = false := by
  unfold hasNonWs at hb
  rw [List.any_eq_true] at hb
  obtain ⟨c, hc, hcp⟩ := hb
  subst hs
  unfold blank
  rw [Bool.eq_false_iff]
  intro hall
  rw [List.all_eq_true] at hall
  have := hall c (by simp [hc])
  rw [this] at hcp
  simp at hcp

/-! Decomposition of the composed drift message -/

theorem metaLines_ne_nil (e : DriftDetectionEvent) : metaLines e ≠ [] := by
  unfold metaLines
  simp

theorem sepChars_length : sepChars.length = 16 := by decide

theorem format_drift_decomp (e : DriftDetectionEvent)
    (h : blockLines e ++ linkLines e ≠ []) :
    format_drift_message e =
      (joinNl (metaLines e) ++ ['\n'] ++ sepChars ++ ['\n']) ++
        '\n' :: joinNl (blockLines e ++ linkLines e) := by
  unfold format_drift_message
  rw [show metaLines e ++ [sepChars, []] ++ blockLines e ++ linkLines e
        = metaLines e ++ ([sepChars, []] ++ (blockLines e ++ linkLines e)) by
      simp [List.append_assoc]]
  rw [joinNl_append (metaLines e) _ (metaLines_ne_nil e) (by simp)]
  cases hTL : blockLines e ++ linkLines e with
  | nil => exact absurd hTL h
  | cons t TL' =>
    simp only [List.cons_append, List.nil_append]
    rw [joinNl_cons₂, joinNl_cons₂]
    simp [List.append_assoc]

theorem format_drift_length_lhs (e : DriftDetectionEvent) :
    (joinNl (metaLines e) ++ ['\n'] ++ sepChars ++ ['\n']).length = metaLen e + 17 := by
  unfold metaLen
  simp [sepChars_length]

theorem splitHeaderContent_eq (e : DriftDetectionEvent)
    (hfind : pyFind sepChars (format_drift_message e) = some (metaLen e))
    (hTL : blockLines e ++ linkLines e ≠ []) :
    splitHeaderContent (format_drift_message e) =
      (joinNl (metaLines e) ++ ['\n'] ++ sepChars ++ ['\n'],
       '\n' :: joinNl (blockLines e ++ linkLines e)) := by
  unfold splitHeaderContent
  rw [hfind]
  dsimp only
  rw [if_pos (by unfold metaLen; omega)]
  rw [format_drift_decomp e hTL]
  rw [List.take_left' (format_drift_length_lhs e), List.drop_left' (format_drift_length_lhs e)]

theorem paragraphChunks_eq (e : DriftDetectionEvent) (eff : Int)
    (hfind : pyFind sepChars (format_drift_message e) = some (metaLen e))
    (hTL : blockLines e ++ linkLines e ≠ []) :
    paragraphChunks (format_drift_message e) eff =
      greedyChunks eff (pySplitNl ('\n' :: joinNl (blockLines e ++ linkLines e)))
        (joinNl (metaLines e) ++ ['\n'] ++ sepChars ++ ['\n']) [] := by
  unfold paragraphChunks
  rw [splitHeaderContent_eq e hfind hTL]

/-! Blocks sit inside the blank-line sections -/

theorem good_nl_block (c : ResourceChange)
    (hg : goodBlockB (format_resource_change c) = true) :
    noNlnlB ('\n' :: format_resource_change c) = true ∧
    endsWithNl ('\n' :: format_resource_change c) = false := by
  obtain ⟨h1, h2⟩ := goodBlock_elim _ hg
  refine ⟨noNlnl_cons_nl _ h1 (fmt_head_ne_nl c), ?_⟩
  rw [endsWithNl_cons _ _ (fmt_ne_nil c)]
  exact h2

theorem blocksInSections_nil (ss : List (List Char)) : blocksInSections [] ss := by
  cases ss <;> exact trivial

theorem refine_split_aux :
    ∀ (cs : List ResourceChange) (LL : List (List Char)),
      (∀ c ∈ cs, goodBlockB (format_resource_change c) = true) →
      blocksInSections (cs.map format_resource_change)
        (pySplitNl (joinNl (cs.flatMap (fun c => [format_resource_change c, []]) ++ LL))) := by
  intro cs
  induction cs with
  | nil =>
    intro LL _
    simp only [List.map_nil]
    exact blocksInSections_nil _
  | cons c cs' ih =>
    intro LL hgood
    have hgc := hgood c (List.mem_cons_self c cs')
    obtain ⟨hno, hend⟩ := goodBlock_elim _ hgc
    have hgood' : ∀ x ∈ cs', goodBlockB (format_resource_change x) = true :=
      fun x hx => hgood x (List.mem_cons_of_mem c hx)
    show blocksInSections (format_resource_change c :: cs'.map format_resource_change)
      (pySplitNl (joinNl ((format_resource_change c :: [] ::
        cs'.flatMap (fun x => [format_resource_change x, []])) ++ LL)))
    simp only [List.cons_append]
    cases hR : cs'.flatMap (fun x => [format_resource_change x, []]) ++ LL with
    | nil =>
      rw [joinNl_cons₂, joinNl_single]
      have hsp := pySplitNl_noNlnl (format_resource_change c ++ ['\n'])
        (noNlnl_append_nl _ hno hend)
      rw [show format_resource_change c ++ '\n' :: ([] : List Char)
            = format_resource_change c ++ ['\n'] from rfl, hsp]
      have hcs' : cs' = [] := by
        cases cs' with
        | nil => rfl
        | cons d ds => simp at hR
      subst hcs'
      exact Or.inl ⟨⟨[], ['\n'], by simp⟩, blocksInSections_nil _⟩
    | cons r R' =>
      rw [joinNl_cons₂, joinNl_cons₂, List.nil_append]
      have hsp := pySplitNl_concat (format_resource_change c) (joinNl (r :: R')) hno hend
      rw [hsp]
      refine Or.inl ⟨⟨[], [], by simp⟩, ?_⟩
      have := ih LL hgood'
      rw [hR] at this
      exact this

theorem refine_split_top (e : DriftDetectionEvent)
    (hgood : ∀ c ∈ e.resource_changes, goodBlockB (format_resource_change c) = true) :
    blocksInSections (e.resource_changes.map format_resource_change)
      (pySplitNl ('\n' :: joinNl (blockLines e ++ linkLines e))) := by
  cases hcs : e.resource_changes with
  | nil =>
    simp only [List.map_nil]
    exact blocksInSections_nil _
  | cons c cs' =>
    have hgc : goodBlockB (format_resource_change c) = true := by
      rw [hcs] at hgood
      exact hgood c (List.mem_cons_self c cs')
    have hgood' : ∀ x ∈ cs', goodBlockB (format_resource_change x) = true := by
      rw [hcs] at hgood
      exact fun x hx => hgood x (List.mem_cons_of_mem c hx)
    obtain ⟨hnoN, hendN⟩ := good_nl_block c hgc
    show blocksInSections (format_resource_change c :: cs'.map format_resource_change)
      (pySplitNl ('\n' :: joinNl (blockLines e ++ linkLines e)))
    have hbl : blockLines e ++ linkLines e
        = format_resource_change c :: [] ::
            (cs'.flatMap (fun x => [format_resource_change x, []]) ++ linkLines e) := by
      unfold blockLines
      rw [hcs]
      simp
    rw [hbl]
    cases hR : cs'.flatMap (fun x => [format_resource_change x, []]) ++ linkLines e with
    | nil =>
      rw [joinNl_cons₂, joinNl_single]
      have hsp := pySplitNl_noNlnl (('\n' :: format_resource_change c) ++ ['\n'])
        (noNlnl_append_nl _ hnoN hendN)
      rw [show '\n' :: (format_resource_change c ++ '\n' :: ([] : List Char))
            = ('\n' :: format_resource_change c) ++ ['\n'] by simp, hsp]
      have hcs' : cs' = [] := by
        cases cs' with
        | nil => rfl
        | cons d ds => simp at hR
      subst hcs'
      exact Or.inl ⟨⟨['\n'], ['\n'], by simp⟩, blocksInSections_nil _⟩
    | cons r R' =>
      rw [joinNl_cons₂, joinNl_cons₂, List.nil_append]
      have hsp := pySplitNl_concat ('\n' :: format_resource_change c)
        (joinNl (r :: R')) hnoN hendN
      rw [show '\n' :: (format_resource_change c ++ '\n' :: '\n' :: joinNl (r :: R'))
            = ('\n' :: format_resource_change c) ++ '\n' :: '\n' :: joinNl (r :: R') by simp, hsp]
      refine Or.inl ⟨⟨['\n'], [], by simp⟩, ?_⟩
      have := refine_split_aux cs' (linkLines e) hgood'
      rw [hR] at this
      exact this

/-! The body of the message contains the blocks in order -/

theorem cio_blocks_body :
    ∀ (cs : List ResourceChange) (LL : List (List Char)),
      cio (cs.map format_resource_change)
        (joinNl (cs.flatMap (fun c => [format_resource_change c, []]) ++ LL)) := by
  intro cs
  induction cs with
  | nil => intro LL; exact cio_nil _
  | cons c cs' ih =>
    intro LL
    show cio (format_resource_change c :: cs'.map format_resource_change)
      (joinNl ((format_resource_change c :: [] ::
        cs'.flatMap (fun x => [format_resource_change x, []])) ++ LL))
    simp only [List.cons_append]
    cases hR : cs'.flatMap (fun x => [format_resource_change x, []]) ++ LL with
    | nil =>
      rw [joinNl_cons₂, joinNl_single]
      have hcs' : cs' = [] := by
        cases cs' with
        | nil => rfl
        | cons d ds => simp at hR
      subst hcs'
      have : cio ([format_resource_change c] : List (List Char))
          ([] ++ format_resource_change c ++ '\n' :: []) :=
        cio_cons_of _ [] [] ('\n' :: []) trivial
      simpa using this
    | cons r R' =>
      rw [joinNl_cons₂, joinNl_cons₂, List.nil_append]
      have hu : cio (cs'.map format_resource_change) ('\n' :: '\n' :: joinNl (r :: R')) := by
        have := ih LL
        rw [hR] at this
        exact cio_prepend _ ['\n', '\n'] _ this
      have := cio_cons_of (format_resource_change c) (cs'.map format_resource_change)
        [] ('\n' :: '\n' :: joinNl (r :: R')) hu
      simpa using this

/-! The greedy paragraph pass preserves in-order containment -/

theorem blocksInSections_cons_elim (b : List Char) (bs : List (List Char))
    (s : List Char) (ss : List (List Char)) :
    blocksInSections (b :: bs) (s :: ss) →
      ((∃ t u, s = t ++ b ++ u) ∧ blocksInSections bs ss) ∨ blocksInSections (b :: bs) ss := id

theorem cio_single_of_inside (b s : List Char) (t u : List Char) (hs : s = t ++ b ++ u) :
    cio [b] s := by
  subst hs
  exact cio_cons_of b [] t u trivial

theorem greedy_cio (eff : Int) :
    ∀ (SS : List (List Char)) (cur : List Char) (acc : List (List Char))
      (BB1 BB2 : List (List Char)),
      cio BB1 (acc.flatten ++ cur) →
      blocksInSections BB2 SS →
      (∀ b ∈ BB2, hasNonWs b = true) →
      cio (BB1 ++ BB2) (greedyChunks eff SS cur acc).flatten := by
  intro SS
  induction SS with
  | nil =>
    intro cur acc BB1 BB2 h1 h2 _
    have hBB2 : BB2 = [] := by
      cases BB2 with
      | nil => rfl
      | cons b bs => exact h2.elim
    subst hBB2
    rw [List.append_nil]
    show cio BB1 (if cur ≠ [] then acc ++ [cur] else acc).flatten
    by_cases hcur : cur = []
    · rw [if_neg (by simp [hcur])]
      subst hcur
      simpa using h1
    · rw [if_pos hcur]
      rw [List.flatten_append]
      simpa using h1
  | cons s rest ih =>
    intro cur acc BB1 BB2 h1 h2 hws
    rw [greedyChunks]
    by_cases hblank : blank s = true
    · rw [if_pos hblank]
      cases BB2 with
      | nil => exact ih cur acc BB1 [] h1 (blocksInSections_nil rest) (by simp)
      | cons b bs =>
        rcases blocksInSections_cons_elim b bs s rest h2 with ⟨⟨t, u, hs⟩, _⟩ | hr
        · have hbf := blank_false_of_inside b s t u hs (hws b (List.mem_cons_self b bs))
          rw [hbf] at hblank
          exact absurd hblank (by simp)
        · exact ih cur acc BB1 (b :: bs) h1 hr hws
    · rw [if_neg hblank]
      by_cases hcur : cur = []
      · have e1 : (if cur ≠ [] then cur ++ ['\n', '\n'] ++ s else s) = s :=
          if_neg (by simp [hcur])
        have e2 : (if cur ≠ [] then acc ++ [cur] else acc) = acc :=
          if_neg (by simp [hcur])
        simp only [e1, e2, ite_self]
        have h1' : cio BB1 acc.flatten := by
          rw [hcur, List.append_nil] at h1
          exact h1
        cases BB2 with
        | nil =>
          exact ih s acc BB1 [] (cio_append_right BB1 _ s h1') (blocksInSections_nil rest)
            (by simp)
        | cons b bs =>
          rcases blocksInSections_cons_elim b bs s rest h2 with ⟨⟨t, u, hs⟩, hrest⟩ | hr
          · have hb := cio_single_of_inside b s t u hs
            have hinv := cio_append BB1 [b] acc.flatten s h1' hb
            have := ih s acc (BB1 ++ [b]) bs hinv hrest
              (fun x hx => hws x (List.mem_cons_of_mem b hx))
            simpa [List.append_assoc] using this
          · exact ih s acc BB1 (b :: bs) (cio_append_right BB1 _ s h1') hr hws
      · have e1 : (if cur ≠ [] then cur ++ ['\n', '\n'] ++ s else s)
            = cur ++ ['\n', '\n'] ++ s := if_pos hcur
        have e2 : (if cur ≠ [] then acc ++ [cur] else acc) = acc ++ [cur] := if_pos hcur
        simp only [e1, e2]
        have hfl : (acc ++ [cur]).flatten = acc.flatten ++ cur := by simp
        by_cases hlen : ((cur ++ ['\n', '\n'] ++ s).length : Int) > eff
        · rw [if_pos hlen]
          cases BB2 with
          | nil =>
            refine ih s (acc ++ [cur]) BB1 [] ?_ (blocksInSections_nil rest) (by simp)
            rw [hfl]
            exact cio_append_right BB1 _ s h1
          | cons b bs =>
            rcases blocksInSections_cons_elim b bs s rest h2 with ⟨⟨t, u, hs⟩, hrest⟩ | hr
            · have hb := cio_single_of_inside b s t u hs
              have hinv : cio (BB1 ++ [b]) ((acc ++ [cur]).flatten ++ s) := by
                rw [hfl]
                exact cio_append BB1 [b] _ s h1 hb
              have := ih s (acc ++ [cur]) (BB1 ++ [b]) bs hinv hrest
                (fun x hx => hws x (List.mem_cons_of_mem b hx))
              simpa [List.append_assoc] using this
            · refine ih s (acc ++ [cur]) BB1 (b :: bs) ?_ hr hws
              rw [hfl]
              exact cio_append_right BB1 _ s h1
        · rw [if_neg hlen]
          cases BB2 with
          | nil =>
            refine ih (cur ++ ['\n', '\n'] ++ s) acc BB1 [] ?_ (blocksInSections_nil rest)
              (by simp)
            have := cio_append_right BB1 _ (['\n', '\n'] ++ s) h1
            simpa [List.append_assoc] using this
          | cons b bs =>
            rcases blocksInSections_cons_elim b bs s rest h2 with ⟨⟨t, u, hs⟩, hrest⟩ | hr
            · have hb := cio_single_of_inside b s t u hs
              have hinv : cio (BB1 ++ [b]) (acc.flatten ++ (cur ++ ['\n', '\n'] ++ s)) := by
                have := cio_append BB1 [b] (acc.flatten ++ cur ++ ['\n', '\n']) s
                  (cio_append_right BB1 _ ['\n', '\n'] h1) hb
                simpa [List.append_assoc] using this
              have := ih (cur ++ ['\n', '\n'] ++ s) acc (BB1 ++ [b]) bs
                (by simpa [List.append_assoc] using hinv) hrest
                (fun x hx => hws x (List.mem_cons_of_mem b hx))
              simpa [List.append_assoc] using this
            · refine ih (cur ++ ['\n', '\n'] ++ s) acc BB1 (b :: bs) ?_ hr hws
              have := cio_append_right BB1 _ (['\n', '\n'] ++ s) h1
              simpa [List.append_assoc] using this

/-! Stripping the injected part headers -/

theorem truncateContent_length_gt (fc : List Char) (maxLen : Nat) (h : fc.length > maxLen) :
    (truncateContent fc maxLen).length > maxLen := by
  unfold truncateContent
  rw [if_pos h, List.length_append]
  have he : ellipsisChars.length = 6 := by decide
  rw [he]
  unfold pyTake
  by_cases hneg : ((maxLen : Int) - 3) < 0
  · rw [if_pos hneg]
    omega
  · rw [if_neg hneg]
    rw [List.length_take]
    have h3 : 3 ≤ maxLen := by omega
    have ht : ((maxLen : Int) - 3).toNat = maxLen - 3 := by omega
    rw [ht]
    have hmin : min (maxLen - 3) fc.length = maxLen - 3 := Nat.min_eq_left (by omega)
    rw [hmin]
    omega

theorem truncateContent_eq_self (fc : List Char) (maxLen : Nat)
    (h : (truncateContent fc maxLen).length ≤ maxLen) : truncateContent fc maxLen = fc := by
  by_cases hfc : fc.length > maxLen
  · have := truncateContent_length_gt fc maxLen hfc
    omega
  · unfold truncateContent
    rw [if_neg hfc]

theorem enumerateParts_strip (maxLen total : Nat) :
    ∀ (cs : List (List Char)) (i : Nat),
      (∀ p ∈ enumerateParts total maxLen i cs, p.content.length ≤ maxLen) →
      (enumerateParts total maxLen i cs).map stripPart = cs := by
  intro cs
  induction cs with
  | nil => intro i _; rfl
  | cons c cs' ih =>
    intro i hlen
    simp only [enumerateParts, List.map_cons]
    congr 1
    · have hp : (truncateContent (if 1 < total then partHeaderChars i total ++ c else c)
          maxLen).length ≤ maxLen := hlen _ (List.mem_cons_self _ _)
      have htr := truncateContent_eq_self _ maxLen hp
      unfold stripPart
      dsimp only
      rw [htr]
      by_cases ht : 1 < total
      · rw [if_pos ht, if_pos ht, List.drop_left]
      · rw [if_neg ht, if_neg ht]
    · exact ih (i + 1) (fun p hp => hlen p (List.mem_cons_of_mem _ hp))

theorem splitChunks_of_noForce (m : List Char) (eff : Int)
    (h : noForceSplitB m eff = true) :
    splitChunks m eff = some (paragraphChunks m eff) := by
  unfold noForceSplitB at h
  unfold splitChunks
  cases hpc : paragraphChunks m eff with
  | nil => rfl
  | cons c l =>
    cases l with
    | nil =>
      rw [hpc] at h
      dsimp only at h ⊢
      have hle : (c.length : Int) ≤ eff := of_decide_eq_true h
      rw [if_neg (by omega)]
    | cons c2 l2 => rfl

/-! Claim C2 -/

/-- A drift event with a single change whose rendered block is far larger
than the effective limit, so that the splitter must truncate it. -/
def evBig : DriftDetectionEvent :=
  { timestamp := ⟨2026, 1, 2, 3, 4, 5⟩,
    environment := chars "e",
    branch := chars "b",
    workflow_run_id := chars "1",
    workflow_run_url := [],
    drift_detected := true,
    resource_changes :=
      [{ resource_type := chars "t",
         resource_name := chars "n",
         action := .update,
         before := some [(chars "k", List.replicate 180 'A')],
         after := some [(chars "k", List.replicate 180 'B')] }] }

set_option maxRecDepth 8000 in
/-- Claim C2 (counterexample to the claim as stated): with `max_length =
150` and a single resource block of about 380 characters, both fragments
are truncated, so the concatenation of the fragment contents minus the
part headers no longer contains the block — the round trip fails whenever
the final length guard truncates (and likewise when the hard line-boundary
fallback cuts inside a block). -/
theorem round_trip_cex : ¬ roundTrip evBig 150 := by
  intro h
  have h2 := h ((split_message (format_drift_message evBig) evBig 150).get (by decide))
    (Option.some_get (by decide)).symm
  exact absurd h2 (by decide)

set_option maxRecDepth 8000 in
set_option maxHeartbeats 1000000 in
/-- Claim C2 (amended): for every composed drift message, provided (i) the
splitter's separator search finds the composer's own separator, (ii) every
rendered resource block contains no blank line and does not end in a
newline, (iii) the paragraph-level pass does not fall back to hard
line-boundary splitting, and (iv) no fragment was truncated (every
returned fragment content is within the maximum length), concatenating all
fragment contents minus the injected part headers yields a string that
contains every resource block of the original composed message, in the
original order, exactly once (as in-order disjoint occurrences, one per
block). -/
theorem round_trip_amended (e : DriftDetectionEvent) (maxLen : Nat)
    (ps : List NotificationPart)
    (hs : split_message (format_drift_message e) e maxLen = some ps)
    (hfind : pyFind sepChars (format_drift_message e) = some (metaLen e))
    (hgood : ∀ c ∈ e.resource_changes, goodBlockB (format_resource_change c) = true)
    (hnf : noForceSplitB (format_drift_message e)
             ((maxLen : Int) - (MESSAGE_BUFFER : Int)) = true)
    (hlen : ∀ p ∈ ps, p.content.length ≤ maxLen) :
    cio (e.resource_changes.map format_resource_change) (strippedJoin ps) := by
  unfold split_message at hs
  by_cases hfit : ((format_drift_message e).length : Int) ≤ (maxLen : Int) - (MESSAGE_BUFFER : Int)
  · rw [if_pos hfit] at hs
    injection hs with hps
    subst hps
    have hstrip : strippedJoin [⟨1, 1, format_drift_message e, none⟩]
        = format_drift_message e := by
      unfold strippedJoin stripPart
      simp
    rw [hstrip]
    cases hcs : e.resource_changes with
    | nil => simp only [List.map_nil]; exact cio_nil _
    | cons c cs' =>
      have hTL : blockLines e ++ linkLines e ≠ [] := by
        unfold blockLines
        rw [hcs]
        simp
      rw [format_drift_decomp e hTL]
      rw [show (joinNl (metaLines e) ++ ['\n'] ++ sepChars ++ ['\n']) ++
            '\n' :: joinNl (blockLines e ++ linkLines e)
          = (joinNl (metaLines e) ++ ['\n'] ++ sepChars ++ ['\n', '\n']) ++
            joinNl (blockLines e ++ linkLines e) by simp]
      rw [← hcs]
      apply cio_prepend
      exact cio_blocks_body e.resource_changes (linkLines e)
  · rw [if_neg hfit] at hs
    rw [Option.map_eq_some'] at hs
    obtain ⟨pcs, hpcs, hps⟩ := hs
    rw [splitChunks_of_noForce _ _ hnf] at hpcs
    have hpcs' : pcs = paragraphChunks (format_drift_message e)
        ((maxLen : Int) - (MESSAGE_BUFFER : Int)) := (Option.some.inj hpcs).symm
    subst hps
    have hstrip : strippedJoin (enumerateParts pcs.length maxLen 1 pcs) = pcs.flatten := by
      unfold strippedJoin
      rw [enumerateParts_strip maxLen pcs.length pcs 1 hlen]
    rw [hstrip]
    rw [hpcs']
    cases hcs : e.resource_changes with
    | nil => simp only [List.map_nil]; exact cio_nil _
    | cons c cs' =>
      have hTL : blockLines e ++ linkLines e ≠ [] := by
        unfold blockLines
        rw [hcs]
        simp
      rw [paragraphChunks_eq e _ hfind hTL]
      rw [← hcs]
      have hsec := refine_split_top e hgood
      have hmain := greedy_cio ((maxLen : Int) - (MESSAGE_BUFFER : Int))
        (pySplitNl ('\n' :: joinNl (blockLines e ++ linkLines e)))
        (joinNl (metaLines e) ++ ['\n'] ++ sepChars ++ ['\n']) [] []
        (e.resource_changes.map format_resource_change)
        (cio_nil _) hsec
        (fun b hb => by
          obtain ⟨c', _, hc'⟩ := List.mem_map.mp hb
          rw [← hc']
          exact fmt_hasNonWs c')
      simpa using hmain

set_option maxRecDepth 8000 in
/-- Witness for the amended C2 at a concrete event whose message fits in a
single fragment (all four side conditions hold and are discharged by
computation). -/
theorem round_trip_amended_witness :
    cio (evA.resource_changes.map format_resource_change)
      (strippedJoin [(⟨1, 1, format_drift_message evA, none⟩ : NotificationPart)]) :=
  round_trip_amended evA 4096 _ (by decide) (by decide) (by decide) (by decide) (by decide)
